import Mathlib
set_option maxRecDepth 40000

/-!
# Verification of the Markdown-to-RSS converter (`src/Markdown-to-RSS.py`)

Shallow embedding of the extraction pipeline (`parse_markdown`, lines 40-91),
the sanitization policy (`sanitize_html`, lines 28-38) and the feed serializer
(`markdown_to_rss`, lines 93-131) of `Markdown-to-RSS.py`.

Strings are modelled as `List Char` (ASCII domain; the Python code operates on
`str` and the regular expressions involved use no Unicode-specific classes for
the inputs in scope).  The markdown-to-HTML rendering on line 43
(`markdown.markdown`) is an external collaborator and is out of scope per the
specification: the embedded `parse_markdown` consumes the rendered HTML text,
exactly as the regular-expression extraction of lines 46-89 does.

Calls into third-party libraries (`re`, `html.escape`, `bleach.clean`,
`datetime.strptime`/`strftime`, `xml.etree.ElementTree`) are embedded by
modelling their documented behaviour on the inputs this program feeds them;
each model documents its domain restrictions at its definition site.
-/

/-- Strings are modelled as lists of characters. -/
abbrev Str := List Char

/-- Converts a Lean string literal to the `List Char` model. -/
def str (s : String) : Str := s.data

/-- The single-quote character (written via its code point to keep string
literals apostrophe-free). -/
def sqc : Char := Char.ofNat 39

/-- Python `\s` for the ASCII range: space, tab, newline, carriage return,
vertical tab, form feed (`re` module semantics; Unicode whitespace beyond
ASCII is outside the modelled domain). -/
def isPySpace (c : Char) : Bool :=
  c = ' ' || c = '\t' || c = '\n' || c = '\r' || c = '\x0b' || c = '\x0c'

/-- Python `str.strip()` with no argument: removes leading and trailing
whitespace. -/
def pyStrip (s : Str) : Str :=
  ((s.dropWhile isPySpace).reverse.dropWhile isPySpace).reverse

/-- Python `str.split(',')`: splits at every comma; the result is never empty
(splitting the empty string yields `[""]`). Used on line 72. -/
def splitOnComma : Str → List Str
  | [] => [[]]
  | c :: r =>
    if c = ',' then [] :: splitOnComma r
    else
      match splitOnComma r with
      | g :: gs => (c :: g) :: gs
      | [] => [[c]]

/-- One character of Python `html.escape` (quote=True, the default used on
lines 87, 100-102, 122, 125): `&`, `<`, `>`, `"`, and the apostrophe are
replaced by character references.  Sequential `str.replace` with `&` first is
equivalent to this character-wise map. -/
def escChar (c : Char) : Str :=
  if c = '&' then str ("&amp;")
  else if c = '<' then str ("&lt;")
  else if c = '>' then str ("&gt;")
  else if c = '"' then str ("&quot;")
  else if c = sqc then str ("&#x27;")
  else [c]

/-- Python `html.escape` with the default `quote=True`. -/
def escape (s : Str) : Str := (s.map escChar).flatten

/-- One character of `xml.etree.ElementTree`'s text-node escaping
(`_escape_cdata`): only `&`, `<`, `>` are replaced. -/
def etEscChar (c : Char) : Str :=
  if c = '&' then str ("&amp;")
  else if c = '<' then str ("&lt;")
  else if c = '>' then str ("&gt;")
  else [c]

/-- Text-node escaping applied by `ET.tostring` (line 128) to every `.text`
value when serializing. -/
def etEscape (s : Str) : Str := (s.map etEscChar).flatten

/-- Decidable equality for `Except`, so that concrete runs of the embedded
pipeline can be checked by `decide`. -/
instance {e a : Type} [DecidableEq e] [DecidableEq a] : DecidableEq (Except e a) := fun x y =>
  match x, y with
  | Except.error u, Except.error v =>
    if h : u = v then isTrue (by rw [h]) else
      isFalse (fun hc => h (Except.error.inj hc))
  | Except.ok u, Except.ok v =>
    if h : u = v then isTrue (by rw [h]) else
      isFalse (fun hc => h (Except.ok.inj hc))
  | Except.error _, Except.ok _ => isFalse (fun hc => Except.noConfusion hc)
  | Except.ok _, Except.error _ => isFalse (fun hc => Except.noConfusion hc)

/-! ## Leftmost-substring search (model of `re.search` for literal patterns) -/

/-- Leftmost occurrence of the literal `pat` in a string: returns
`some (pre, suf)` where the input is `pre ++ suf`, `suf` starts with `pat`,
and `pre` is shortest; `none` if `pat` does not occur. -/
def splitAtSubstr (pat : Str) : Str → Option (Str × Str)
  | [] => if pat.isPrefixOf ([] : Str) then some ([], []) else none
  | c :: r =>
    if pat.isPrefixOf (c :: r) then some ([], c :: r)
    else
      match splitAtSubstr pat r with
      | some (pre, suf) => some (c :: pre, suf)
      | none => none

/-- Whether the literal `pat` occurs as a substring. -/
def occursIn (pat s : Str) : Bool := (splitAtSubstr pat s).isSome

/-- The literal `<h1>` (opening top-level heading tag in the rendered HTML). -/
def strH1o : Str := str ("<h1>")

/-- The literal `</h1>`. -/
def strH1c : Str := str ("</h1>")

/-- The literal `Categories:` (line 69). -/
def strCategories : Str := str ("Categories:")

/-- The literal `Author:` (line 76). -/
def strAuthor : Str := str ("Author:")

/-! ## Model of `re.findall(r'<h1>(.*?)</h1>(.*?)(?=<h1>|$)', html, re.DOTALL)`
(line 46).

With `re.DOTALL`, `.` matches every character.  The second group is
non-greedy, bounded by a lookahead that succeeds at the next `<h1>` or at `$`
(end of string, or just before a single trailing newline).  `findall` resumes
scanning at the end of each match, i.e. at the lookahead position. -/

/-- Consumes the non-greedy body group `(.*?)(?=<h1>|$)`: stops at the first
position where `<h1>` begins or where `$` holds; returns the body and the
remaining suffix (the lookahead position), which is where scanning resumes. -/
def takeBody : Str → Str × Str
  | [] => ([], [])
  | c :: r =>
    if strH1o.isPrefixOf (c :: r) then ([], c :: r)
    else if c = '\n' && r.isEmpty then ([], [c])
    else
      let p := takeBody r
      (c :: p.1, p.2)

/-- One scanning pass of the `findall`, with fuel bounding the number of
matches (each match consumes at least nine characters, so `length + 1` fuel
always suffices). -/
def findItemsAux : Nat → Str → List (Str × Str)
  | 0, _ => []
  | fuel + 1, s =>
    match splitAtSubstr strH1o s with
    | none => []
    | some (_, suf) =>
      match splitAtSubstr strH1c (suf.drop 4) with
      | none => []
      | some (title, suf2) =>
        let p := takeBody (suf2.drop 5)
        (title, p.1) :: findItemsAux fuel p.2

/-- All `(title, body)` pairs produced by the `re.findall` on line 46. -/
def findItems (s : Str) : List (Str × Str) := findItemsAux (s.length + 1) s

/-! ## Model of the date search `re.search(r'\s*(\d{4}[hyphen or slash]\d{2}[hyphen or slash]\d{2})', c)`
(lines 54-55).

The leftmost match starts at the earliest position from which greedy `\s*`
followed by the ten-character numeric date succeeds; since whitespace and
digits are disjoint, this is: maximal whitespace run, then the date pattern
immediately. -/

/-- Whether a string begins with `\d{4}[hyphen or slash]\d{2}[hyphen or slash]\d{2}`. -/
def dateAt10 : Str → Bool
  | y1 :: y2 :: y3 :: y4 :: s1 :: m1 :: m2 :: s2 :: d1 :: d2 :: _ =>
    y1.isDigit && y2.isDigit && y3.isDigit && y4.isDigit &&
    (s1 = '-' || s1 = '/') && m1.isDigit && m2.isDigit &&
    (s2 = '-' || s2 = '/') && d1.isDigit && d2.isDigit
  | _ => false

/-- Leftmost match of the date pattern: `some (pre, ws, ds, post)` decomposes
the input as `pre ++ ws ++ ds ++ post` with `ws` the consumed `\s*` run and
`ds` the ten-character group; the regex match spans `ws ++ ds`. -/
def findDate : Str → Option (Str × Str × Str × Str)
  | [] => none
  | c :: r =>
    let w := (c :: r).takeWhile isPySpace
    let u := (c :: r).dropWhile isPySpace
    if dateAt10 u then some ([], w, u.take 10, u.drop 10)
    else
      match findDate r with
      | some (pre, w2, ds, post) => some (c :: pre, w2, ds, post)
      | none => none

/-! ## Model of `re.search(r'Label:\s*(.*?)(?:\n|$)', c)` (lines 69, 76).

After the literal label, greedy `\s*` consumes the maximal whitespace run
(including newlines); the non-greedy dot group (no DOTALL here) then extends
to the first following newline, which the `(?:\n|$)` group consumes, or to
the end of the string. -/

/-- Consumes `(.*?)(?:\n|$)` where `.` excludes newlines: returns the group
and the text after the consumed newline (or `[]` at end of string). -/
def splitLine : Str → Str × Str
  | [] => ([], [])
  | c :: r =>
    if c = '\n' then ([], r)
    else
      let p := splitLine r
      (c :: p.1, p.2)

/-- Leftmost match of `label` + `\s*(.*?)(?:\n|$)`: `some (pre, g, post)`
where `pre` is the text before the match, `g` is the captured group and
`post` the text after the whole match; removing the match yields
`pre ++ post`. -/
def findLabeled (label : Str) (s : Str) : Option (Str × Str × Str) :=
  match splitAtSubstr label s with
  | none => none
  | some (pre, suf) =>
    let t := (suf.drop label.length).dropWhile isPySpace
    let p := splitLine t
    some (pre, p.1, p.2)

/-! ## Model of `datetime.strptime` (line 58) and `strftime` (lines 114, 117).

The model supports the directives `%Y`, `%m`, `%d` and `%%` plus literal
characters — the only directives the repository's date formats use (the CLI
default is `%Y-%m-%d`).  Any other directive makes the parse fail, standing
in for the exception Python would raise.  `%Y` matches exactly four digits,
`%m` matches `1[0-2]|0[1-9]|[1-9]`, `%d` matches `3[01]|[12]\d|0[1-9]|[1-9]`
(the `_strptime` regexes, alternatives tried left to right), the whole input
must be consumed, and the resulting date must be a valid proleptic-Gregorian
calendar date with year at least 1 (else `ValueError`). -/

/-- Numeric value of a digit character. -/
def digitVal (c : Char) : Nat := c.toNat - 48

/-- The `_strptime` month regex `1[0-2]|0[1-9]|[1-9]`, leftmost alternative
first. -/
def parseMonth : Str → Option (Nat × Str)
  | '1' :: c :: r =>
    if '0' ≤ c && c ≤ '2' then some (10 + digitVal c, r) else some (1, c :: r)
  | '0' :: c :: r =>
    if '1' ≤ c && c ≤ '9' then some (digitVal c, r) else none
  | c :: r =>
    if '1' ≤ c && c ≤ '9' then some (digitVal c, r) else none
  | [] => none

/-- The `_strptime` day regex `3[01]|[12]\d|0[1-9]|[1-9]`, leftmost
alternative first. -/
def parseDay : Str → Option (Nat × Str)
  | '3' :: c :: r =>
    if c = '0' || c = '1' then some (30 + digitVal c, r) else some (3, c :: r)
  | '1' :: c :: r =>
    if c.isDigit then some (10 + digitVal c, r) else some (1, c :: r)
  | '2' :: c :: r =>
    if c.isDigit then some (20 + digitVal c, r) else some (2, c :: r)
  | '0' :: c :: r =>
    if '1' ≤ c && c ≤ '9' then some (digitVal c, r) else none
  | c :: r =>
    if '1' ≤ c && c ≤ '9' then some (digitVal c, r) else none
  | [] => none

/-- Walks the format string against the input, accumulating the parsed year,
month and day; fails on unconverted trailing data, exhausted input, literal
mismatch or unsupported directive. -/
def strptimeAux : Str → Str → Option Nat × Option Nat × Option Nat →
    Option (Option Nat × Option Nat × Option Nat)
  | [], s, acc => if s.isEmpty then some acc else none
  | '%' :: 'Y' :: f, s, (_, m, d) =>
    match s with
    | a :: b :: c :: e :: s2 =>
      if a.isDigit && b.isDigit && c.isDigit && e.isDigit then
        strptimeAux f s2
          (some (digitVal a * 1000 + digitVal b * 100 + digitVal c * 10 + digitVal e), m, d)
      else none
    | _ => none
  | '%' :: 'm' :: f, s, (y, _, d) =>
    match parseMonth s with
    | some (v, s2) => strptimeAux f s2 (y, some v, d)
    | none => none
  | '%' :: 'd' :: f, s, (y, m, _) =>
    match parseDay s with
    | some (v, s2) => strptimeAux f s2 (y, m, some v)
    | none => none
  | '%' :: '%' :: f, s, acc =>
    match s with
    | '%' :: s2 => strptimeAux f s2 acc
    | _ => none
  | '%' :: _ :: _, _, _ => none
  | '%' :: [], _, _ => none
  | c :: f, s, acc =>
    match s with
    | c2 :: s2 => if c = c2 then strptimeAux f s2 acc else none
    | [] => none

/-- Proleptic-Gregorian leap year test (`datetime` semantics). -/
def isLeap (y : Nat) : Bool := y % 4 = 0 && (y % 100 ≠ 0 || y % 400 = 0)

/-- Number of days in a month. -/
def daysInMonth (y m : Nat) : Nat :=
  if m = 2 then (if isLeap y then 29 else 28)
  else if m = 4 || m = 6 || m = 9 || m = 11 then 30
  else 31

/-- A `datetime.datetime` value.  `strptime` with a date-only format yields
midnight. -/
structure DateTime where
  year : Nat
  month : Nat
  day : Nat
  hour : Nat
  minute : Nat
  second : Nat
deriving DecidableEq, Repr

/-- Python `datetime.strptime(s, fmt)` returning `none` where Python raises
`ValueError` (the only exception line 60 catches).  Missing directives
default to 1900-01-01 as in `_strptime`. -/
def strptime (s fmt : Str) : Option DateTime :=
  match strptimeAux fmt s (none, none, none) with
  | none => none
  | some (oy, om, od) =>
    let y := oy.getD 1900
    let m := om.getD 1
    let d := od.getD 1
    if 1 ≤ y && d ≤ daysInMonth y m then some ⟨y, m, d, 0, 0, 0⟩ else none

/-- Cumulative days before each month in a non-leap year. -/
def daysBeforeMonth (y m : Nat) : Nat :=
  [0, 31, 59, 90, 120, 151, 181, 212, 243, 273, 304, 334].getD (m - 1) 0 +
    (if 2 < m && isLeap y then 1 else 0)

/-- Python `date.toordinal()`: day number in the proleptic Gregorian
calendar, with 0001-01-01 as day 1. -/
def toOrdinal (y m d : Nat) : Nat :=
  365 * (y - 1) + (y - 1) / 4 + (y - 1) / 400 - (y - 1) / 100 +
    daysBeforeMonth y m + d

/-- Python `date.weekday()`: 0 is Monday (0001-01-01 is a Monday). -/
def weekday (dt : DateTime) : Nat := (toOrdinal dt.year dt.month dt.day - 1) % 7

/-- C-locale `%a` names indexed by `weekday`. -/
def dayNames : List Str :=
  [str ("Mon"), str ("Tue"), str ("Wed"), str ("Thu"), str ("Fri"),
   str ("Sat"), str ("Sun")]

/-- C-locale `%b` names indexed by month-1. -/
def monthNames : List Str :=
  [str ("Jan"), str ("Feb"), str ("Mar"), str ("Apr"), str ("May"),
   str ("Jun"), str ("Jul"), str ("Aug"), str ("Sep"), str ("Oct"),
   str ("Nov"), str ("Dec")]

/-- Two-digit zero-padded decimal. -/
def pad2 (n : Nat) : Str := if n < 10 then '0' :: (Nat.repr n).data else (Nat.repr n).data

/-- `strftime("%a, %d %b %Y %H:%M:%S +0000")` (lines 114 and 117).  Years in
scope have four digits, so `%Y` needs no padding. -/
def fmtRfc822 (dt : DateTime) : Str :=
  dayNames.getD (weekday dt) [] ++ str (", ") ++ pad2 dt.day ++ str (" ") ++
  monthNames.getD (dt.month - 1) [] ++ str (" ") ++ (Nat.repr dt.year).data ++
  str (" ") ++ pad2 dt.hour ++ str (":") ++ pad2 dt.minute ++ str (":") ++
  pad2 dt.second ++ str (" +0000")

/-! ## Model of `bleach.clean` (lines 28-38, `sanitize_html`).

`bleach.clean` is called with an allow-list of tags, an attribute map, and the
default `strip=False` / `strip_comments=True`: tags outside the allow-list are
*escaped* (re-emitted as entity-escaped text), allowed tags are re-serialized
keeping only their allowed attributes in source order, and bare `&`, `<`, `>`
in text are escaped (well-formed references to `amp`, `lt`, `gt`, `quot` are
preserved).

Modelled domain: lowercase tag and attribute names, attribute syntax
`name="value"` with no `"`, `&` or `<` in values, no comments, no self-closing
slashes, no markup inside raw-text element content, and character references
limited to the four above.  Every theorem input stays inside this domain. -/

/-- Tag or attribute name characters. -/
def isNameChar (c : Char) : Bool := c.isAlpha || c.isDigit

/-- A parsed tag token. -/
structure TagTok where
  closing : Bool
  name : Str
  attrs : List (Str × Str)
deriving DecidableEq, Repr

/-- Parses the attribute list of a start tag up to and including `>`. -/
def parseAttrs : Nat → Str → Option (List (Str × Str) × Str)
  | 0, _ => none
  | fuel + 1, s =>
    match s with
    | [] => none
    | '>' :: r => some ([], r)
    | c :: r =>
      if isPySpace c then parseAttrs fuel r
      else if c.isAlpha then
        let an := (c :: r).takeWhile isNameChar
        match (c :: r).dropWhile isNameChar with
        | '=' :: '"' :: r3 =>
          let v := r3.takeWhile (fun d => d ≠ '"')
          match r3.dropWhile (fun d => d ≠ '"') with
          | '"' :: r5 =>
            match parseAttrs fuel r5 with
            | some (rest, rem) => some ((an, v) :: rest, rem)
            | none => none
          | _ => none
        | _ => none
      else none

/-- Parses one tag after a `<`: either `</name>` or `<name attrs>`. -/
def parseTag (s : Str) : Option (TagTok × Str) :=
  match s with
  | '/' :: r =>
    let n := r.takeWhile isNameChar
    (match r.dropWhile isNameChar with
     | '>' :: rest => if n.isEmpty then none else some (⟨true, n, []⟩, rest)
     | _ => none)
  | c :: r =>
    if c.isAlpha then
      let n := (c :: r).takeWhile isNameChar
      match parseAttrs s.length ((c :: r).dropWhile isNameChar) with
      | some (attrs, rest) => some (⟨false, n, attrs⟩, rest)
      | none => none
    else none
  | [] => none

/-- The allow-list of lines 29-32. -/
def allowed_tags : List Str :=
  [str ("a"), str ("abbr"), str ("acronym"), str ("b"), str ("blockquote"),
   str ("code"), str ("em"), str ("i"), str ("li"), str ("ol"),
   str ("strong"), str ("ul"), str ("p"), str ("br"), str ("span"),
   str ("div"), str ("h1"), str ("h2"), str ("h3"), str ("h4"), str ("h5"),
   str ("h6"), str ("pre")]

/-- The attribute allow-list of lines 33-37: `href`/`title` on `a`, `title`
on `abbr` and `acronym`, nothing anywhere else. -/
def allowedAttrsFor (tag : Str) : List Str :=
  if tag = str ("a") then [str ("href"), str ("title")]
  else if tag = str ("abbr") then [str ("title")]
  else if tag = str ("acronym") then [str ("title")]
  else []

/-- Serialization of an attribute as ` name="value"`. -/
def renderAttr (a : Str × Str) : Str :=
  str (" ") ++ a.1 ++ str ("=") ++ ['"'] ++ a.2 ++ ['"']

/-- Serialization of an attribute list. -/
def renderAttrs (l : List (Str × Str)) : Str := (l.map renderAttr).flatten

/-- Re-serialization of a tag token: verbatim for an allowed tag (with its
attribute list already filtered), entity-escaped text for a disallowed one
(`strip=False`). -/
def renderTagTok (t : TagTok) (escaped : Bool) : Str :=
  if escaped then
    str ("&lt;") ++ (if t.closing then str ("/") else []) ++ t.name ++
      renderAttrs t.attrs ++ str ("&gt;")
  else
    str ("<") ++ (if t.closing then str ("/") else []) ++ t.name ++
      renderAttrs t.attrs ++ str (">")

/-- Recognizes the modelled character references after a `&`. -/
def entityAt (r : Str) : Option (Str × Str) :=
  if (str ("amp;")).isPrefixOf r then some (str ("amp;"), r.drop 4)
  else if (str ("lt;")).isPrefixOf r then some (str ("lt;"), r.drop 3)
  else if (str ("gt;")).isPrefixOf r then some (str ("gt;"), r.drop 3)
  else if (str ("quot;")).isPrefixOf r then some (str ("quot;"), r.drop 5)
  else none

/-- Token-by-token cleaning pass; each step consumes at least one character,
so fuel `length` suffices. -/
def sanitizeAux : Nat → Str → Str
  | 0, _ => []
  | fuel + 1, s =>
    match s with
    | [] => []
    | c :: r =>
      if c = '<' then
        (match parseTag r with
         | some (t, rest) =>
           (if allowed_tags.contains t.name then
              renderTagTok ⟨t.closing, t.name,
                t.attrs.filter (fun p => (allowedAttrsFor t.name).contains p.1)⟩ false
            else renderTagTok t true) ++ sanitizeAux fuel rest
         | none => str ("&lt;") ++ sanitizeAux fuel r)
      else if c = '&' then
        (match entityAt r with
         | some (ent, rest) => '&' :: ent ++ sanitizeAux fuel rest
         | none => str ("&amp;") ++ sanitizeAux fuel r)
      else if c = '>' then str ("&gt;") ++ sanitizeAux fuel r
      else c :: sanitizeAux fuel r

/-- `sanitize_html` (lines 28-38): `bleach.clean` restricted to the
allow-lists above. -/
def sanitize_html (s : Str) : Str := sanitizeAux s.length s

/-! ## The extraction pipeline (`parse_markdown`, lines 40-91) -/

/-- An `Article` record (lines 18-23). -/
structure Article where
  title : Str
  content : Str
  date : Option DateTime
  categories : List Str
  author : Option Str
deriving DecidableEq, Repr

/-- The diagnostics the core emits (`logging.warning` / `logging.error`
calls), abstracted as events carrying exactly the data interpolated into the
message. -/
inductive LogEvent where
  /-- Line 61: invalid date format for an article (raw title, expected
  format). -/
  | invalidDate (title : Str) (fmt : Str) : LogEvent
  /-- Line 65: no date found for an article (raw title). -/
  | noDate (title : Str) : LogEvent
  /-- Line 116: using the current date for an article (escaped title). -/
  | usingCurrent (title : Str) : LogEvent
  /-- Line 130: error while generating the feed. -/
  | errorGenerating : LogEvent
deriving DecidableEq, Repr

/-- `MarkdownParsingError` (lines 25-26); the only failure the core raises
itself is the zero-articles case of line 49 (every other exception inside the
`try` of lines 41-89 is either caught on line 60 or impossible in the
modelled domain). -/
inductive MdError where
  | noArticles : MdError
deriving DecidableEq, Repr

/-- Lines 54-65: date extraction for one block.  On a successful parse the
matched span (whitespace plus date) is cut out of the content; when the
match is found but `strptime` raises, line 59 is never reached, so the
content is left unchanged and a warning is logged; with no match a warning
is logged. -/
def dateStep (fmt title content : Str) : Option DateTime × Str × List LogEvent :=
  match findDate content with
  | some (pre, _, ds, post) =>
    (match strptime ds fmt with
     | some dt => (some dt, pre ++ post, [])
     | none => (none, content, [LogEvent.invalidDate title fmt]))
  | none => (none, content, [LogEvent.noDate title])

/-- Lines 67-73: category extraction; when the pattern matches, the group is
split on commas and each label stripped, and the matched span is removed. -/
def categoriesStep (content : Str) : List Str × Str :=
  match findLabeled strCategories content with
  | some (pre, g, post) => ((splitOnComma g).map pyStrip, pre ++ post)
  | none => ([], content)

/-- Lines 75-82: author extraction. -/
def authorStep (content : Str) : Option Str × Str :=
  match findLabeled strAuthor content with
  | some (pre, g, post) => (some (pyStrip g), pre ++ post)
  | none => (none, content)

/-- Lines 52-87: the full per-block pipeline producing one `Article` and its
warnings. -/
def parseBlock (fmt title content : Str) : Article × List LogEvent :=
  let d0 := dateStep fmt title content
  let c0 := categoriesStep d0.2.1
  let a0 := authorStep c0.2
  (⟨escape (pyStrip title), pyStrip (sanitize_html a0.2), d0.1, c0.1, a0.1⟩,
   d0.2.2)

/-- Processes each block in order, concatenating the per-block warnings. -/
def processItems (fmt : Str) : List (Str × Str) → List Article × List LogEvent
  | [] => ([], [])
  | tb :: rest =>
    let p := parseBlock fmt tb.1 tb.2
    let q := processItems fmt rest
    (p.1 :: q.1, p.2 ++ q.2)

/-- `parse_markdown` (lines 40-91) on the rendered HTML text: raises
`MarkdownParsingError` when no blocks are found (lines 48-49), otherwise
yields the articles in document order together with the emitted warnings. -/
def parse_markdown (html fmt : Str) : Except MdError (List Article × List LogEvent) :=
  match findItems html with
  | [] => Except.error MdError.noArticles
  | it :: its => Except.ok (processItems fmt (it :: its))

/-! ## The feed serializer (`markdown_to_rss`, lines 93-131).

`ET.tostring(rss, encoding="unicode", xml_declaration=True)` writes the
declaration `<?xml version='1.0' encoding='utf-8'?>` (verified against
CPython 3.11), then serializes the tree with text nodes escaped by
`_escape_cdata` and childless elements with empty text rendered as
`<tag />`. -/

/-- Serialization of one child element holding only text, as `ET.tostring`
renders it: `<tag />` when the text is empty (Python `if text:` is false),
otherwise the escaped text between tags. -/
def renderTextEl (tag txt : Str) : Str :=
  if txt.isEmpty then str ("<") ++ tag ++ str (" />")
  else str ("<") ++ tag ++ str (">") ++ etEscape txt ++ str ("</") ++ tag ++ str (">")

/-- Lines 108-125: one `item` element.  A missing date substitutes the
current wall-clock time (passed explicitly as `now`) and logs a warning; an
empty author string is falsy in Python, so line 124 skips it. -/
def renderItem (now : DateTime) (a : Article) : Str × List LogEvent :=
  let pd :=
    match a.date with
    | some d => (fmtRfc822 d, ([] : List LogEvent))
    | none => (fmtRfc822 now, [LogEvent.usingCurrent a.title])
  (str ("<item>") ++
   renderTextEl (str ("title")) a.title ++
   renderTextEl (str ("description")) a.content ++
   renderTextEl (str ("pubDate")) pd.1 ++
   (a.categories.map (fun c => renderTextEl (str ("category")) (escape c))).flatten ++
   (match a.author with
    | some au => if au.isEmpty then [] else renderTextEl (str ("author")) (escape au)
    | none => []) ++
   str ("</item>"), pd.2)

/-- The XML declaration emitted by line 128 (single quotes written via
`sqc`). -/
def xmlDecl : Str :=
  str ("<?xml version=") ++ [sqc] ++ str ("1.0") ++ [sqc] ++
  str (" encoding=") ++ [sqc] ++ str ("utf-8") ++ [sqc] ++ str ("?>") ++ ['\n']

/-- `markdown_to_rss` (lines 93-131), with the wall clock passed explicitly:
on a parsing failure the error is logged (line 130) and re-raised; otherwise
the feed document text is produced, with the feed metadata escaped twice
(once by `escape` on lines 100-102 and again by `ET.tostring`) and each
article rendered in order. -/
def markdown_to_rss (now : DateTime) (html ft fd fl fmt : Str) :
    Except MdError Str × List LogEvent :=
  match parse_markdown html fmt with
  | Except.error e => (Except.error e, [LogEvent.errorGenerating])
  | Except.ok (arts, plogs) =>
    let rendered := arts.map (renderItem now)
    (Except.ok (xmlDecl ++ str ("<rss version=\"2.0\"><channel>") ++
      renderTextEl (str ("title")) (escape ft) ++
      renderTextEl (str ("description")) (escape fd) ++
      renderTextEl (str ("link")) (escape fl) ++
      (rendered.map Prod.fst).flatten ++
      str ("</channel></rss>")),
     plogs ++ (rendered.map Prod.snd).flatten)

/-! ## Rendered-input well-formedness for the segmentation theorems -/

/-- Rendering of one article block: a top-level heading with inner text `t`
followed by the body `b`. -/
def renderBlock (tb : Str × Str) : Str := strH1o ++ tb.1 ++ strH1c ++ tb.2

/-- Rendering of a whole document from its blocks. -/
def renderBlocks (bs : List (Str × Str)) : Str := (bs.map renderBlock).flatten

/-- A well-formed block: the closing tag `</h1>` does not occur in the title
(not even straddling into the title's own closing tag), `<h1>` does not occur
in the body (not even straddling into the next block's heading), and the body
does not end with a bare newline (which the `$` lookahead of line 46 would
silently exclude from the body group). -/
def blockOk (tb : Str × Str) : Prop :=
  occursIn strH1c (tb.1 ++ str ("</h1")) = false ∧
  occursIn strH1o (tb.2 ++ str ("<h1")) = false ∧
  tb.2.getLast? ≠ some '\n'

instance (tb : Str × Str) : Decidable (blockOk tb) := by
  unfold blockOk; infer_instance

/-! ## Helper lemmas on prefixes and substring occurrence -/

theorem isPrefixOf_iff (p s : Str) : p.isPrefixOf s = true ↔ s.take p.length = p := by
  rw [List.isPrefixOf_iff_prefix, List.prefix_iff_eq_take]
  exact eq_comm

theorem isPrefixOf_append_self (p x : Str) : p.isPrefixOf (p ++ x) = true := by
  rw [isPrefixOf_iff]
  exact List.take_left p x

theorem occursIn_cons (pat : Str) (c : Char) (s : Str) :
    occursIn pat (c :: s) = (pat.isPrefixOf (c :: s) || occursIn pat s) := by
  by_cases h : pat.isPrefixOf (c :: s) = true
  · simp [occursIn, splitAtSubstr, h]
  · rw [Bool.not_eq_true] at h
    cases hs : splitAtSubstr pat s with
    | none => simp [occursIn, splitAtSubstr, h, hs]
    | some pq => simp [occursIn, splitAtSubstr, h, hs]

theorem isPrefixOf_append_of_prefix (p s y : Str) (h : p.isPrefixOf s = true) :
    p.isPrefixOf (s ++ y) = true := by
  rw [isPrefixOf_iff] at h ⊢
  have hle : p.length ≤ s.length := by
    have := congrArg List.length h
    simp [List.length_take] at this
    omega
  rw [List.take_append_of_le_length hle, h]

theorem occursIn_append_left (pat x y : Str) (h : occursIn pat x = true) :
    occursIn pat (x ++ y) = true := by
  induction x with
  | nil =>
    simp only [occursIn, splitAtSubstr] at h
    by_cases hp : pat.isPrefixOf ([] : Str) = true
    · have : pat = [] := by
        rw [isPrefixOf_iff] at hp
        simpa using hp.symm
      subst this
      cases y with
      | nil => simp [occursIn, splitAtSubstr]
      | cons c r => simp [occursIn_cons, List.isPrefixOf]
    · rw [Bool.not_eq_true] at hp
      simp [hp] at h
  | cons c r ih =>
    rw [occursIn_cons] at h
    rw [List.cons_append, occursIn_cons]
    rcases Bool.or_eq_true_iff.mp h with h1 | h2
    · have h3 := isPrefixOf_append_of_prefix pat (c :: r) y h1
      rw [List.cons_append] at h3
      rw [h3]
      simp
    · rw [ih h2]
      simp

theorem occursIn_of_append_false (pat x y : Str) (h : occursIn pat (x ++ y) = false) :
    occursIn pat x = false := by
  by_contra hc
  rw [Bool.not_eq_false] at hc
  rw [occursIn_append_left pat x y hc] at h
  cases h

theorem occursIn_cons_false (pat : Str) (c : Char) (s : Str)
    (h : occursIn pat (c :: s) = false) : occursIn pat s = false := by
  rw [occursIn_cons] at h
  exact (Bool.or_eq_false_iff.mp h).2

/-- A head occurrence of `pat` in `x ++ pat ++ rest` with nonempty `x` fits
entirely inside `x ++ pat.dropLast`, so the strong no-occurrence hypothesis
rules it out. -/
theorem not_prefix_of_no_occur (pat x rest : Str) (hx : x ≠ [])
    (h : occursIn pat (x ++ pat.dropLast) = false) :
    pat.isPrefixOf (x ++ pat ++ rest) = false := by
  by_contra hc
  rw [Bool.not_eq_false, isPrefixOf_iff] at hc
  have hxlen : 1 ≤ x.length := by
    cases x with
    | nil => exact absurd rfl hx
    | cons a t => simp
  have hagree : (x ++ pat ++ rest).take pat.length = (x ++ pat.dropLast).take pat.length := by
    have hL : (x ++ (pat ++ rest)).take pat.length =
        x.take pat.length ++ (pat ++ rest).take (pat.length - x.length) :=
      List.take_append_eq_append_take
    have hR : (x ++ pat.dropLast).take pat.length =
        x.take pat.length ++ pat.dropLast.take (pat.length - x.length) :=
      List.take_append_eq_append_take
    rw [List.append_assoc, hL, hR]
    congr 1
    rw [List.take_append_of_le_length (by omega), List.dropLast_eq_take, List.take_take]
    congr 1
    omega
  have hpre : pat.isPrefixOf (x ++ pat.dropLast) = true := by
    rw [isPrefixOf_iff, ← hagree, hc]
  cases x with
  | nil => exact absurd rfl hx
  | cons a t =>
    rw [List.cons_append] at hpre
    rw [List.cons_append, occursIn_cons, hpre] at h
    simp at h

/-- Leftmost search finds the pattern at the head of `pat ++ x`. -/
theorem splitAtSubstr_self (pat x : Str) (hp : pat ≠ []) :
    splitAtSubstr pat (pat ++ x) = some ([], pat ++ x) := by
  cases hpat : pat with
  | nil => exact absurd hpat hp
  | cons p0 pt =>
    rw [← hpat]
    have : pat ++ x = p0 :: (pt ++ x) := by rw [hpat]; rfl
    rw [this, splitAtSubstr]
    have hpre : pat.isPrefixOf (p0 :: (pt ++ x)) = true := by
      rw [← this]
      exact isPrefixOf_append_self pat x
    rw [hpre]
    simp [← this]

/-- Leftmost search in `pre ++ pat ++ rest` finds the pattern exactly at the
block boundary when it occurs nowhere in `pre`, not even straddling into the
boundary copy. -/
theorem splitAtSubstr_append_pat (pat pre rest : Str) (hp : pat ≠ [])
    (h : occursIn pat (pre ++ pat.dropLast) = false) :
    splitAtSubstr pat (pre ++ pat ++ rest) = some (pre, pat ++ rest) := by
  induction pre with
  | nil =>
    simpa using splitAtSubstr_self pat rest hp
  | cons c pre' ih =>
    have hnp : pat.isPrefixOf ((c :: pre') ++ pat ++ rest) = false :=
      not_prefix_of_no_occur pat (c :: pre') rest (by simp) h
    have htail : occursIn pat (pre' ++ pat.dropLast) = false := by
      rw [List.cons_append] at h
      exact occursIn_cons_false _ _ _ h
    have hrec := ih htail
    rw [List.cons_append, List.cons_append, splitAtSubstr]
    rw [List.cons_append, List.cons_append] at hnp
    rw [hnp]
    simp only [← List.cons_append]
    rw [List.append_assoc] at hrec ⊢
    simp [hrec]

/-! ## Segmentation of a well-formed rendered document -/

theorem strH1o_dropLast : strH1o.dropLast = str ("<h1") := rfl

theorem strH1c_dropLast : strH1c.dropLast = str ("</h1") := rfl

theorem takeBody_cons (c : Char) (r : Str) :
    takeBody (c :: r) =
      if strH1o.isPrefixOf (c :: r) then ([], c :: r)
      else if c = '\n' && r.isEmpty then ([], [c])
      else (c :: (takeBody r).1, (takeBody r).2) := rfl

theorem takeBody_of_prefix (s : Str) (hs : strH1o.isPrefixOf s = true) :
    takeBody s = ([], s) := by
  cases s with
  | nil =>
    rw [isPrefixOf_iff] at hs
    have := congrArg List.length hs
    simp [strH1o, str] at this
  | cons c rr => simp [takeBody_cons, hs]

/-- The non-greedy body group stops exactly at the next block's heading when
`<h1>` occurs nowhere in the body, not even straddling the boundary. -/
theorem takeBody_append_h1 (b q : Str)
    (hb : occursIn strH1o (b ++ str ("<h1")) = false) :
    takeBody (b ++ strH1o ++ q) = (b, strH1o ++ q) := by
  induction b with
  | nil =>
    simp only [List.nil_append]
    exact takeBody_of_prefix _ (isPrefixOf_append_self _ _)
  | cons c b' ih =>
    have hnp := not_prefix_of_no_occur strH1o (c :: b') q (by simp)
      (by rw [strH1o_dropLast]; exact hb)
    have htail : occursIn strH1o (b' ++ str ("<h1")) = false := by
      rw [List.cons_append] at hb
      exact occursIn_cons_false _ _ _ hb
    have ihq := ih htail
    rw [List.append_assoc] at ihq ⊢
    rw [List.append_assoc, List.cons_append] at hnp
    rw [List.cons_append]
    have hne : (b' ++ (strH1o ++ q)).isEmpty = false := by
      cases b' <;> rfl
    rw [takeBody_cons, hnp, hne, ihq]
    simp

/-- With no following heading, the body group runs to the end of the
document (given that the body does not end in a bare newline, which `$`
would exclude). -/
theorem takeBody_final (b : Str) (hb : occursIn strH1o b = false)
    (hl : b.getLast? ≠ some '\n') : takeBody b = (b, []) := by
  induction b with
  | nil => rfl
  | cons c b' ih =>
    have hnp : strH1o.isPrefixOf (c :: b') = false := by
      rw [occursIn_cons] at hb
      exact (Bool.or_eq_false_iff.mp hb).1
    have htail : occursIn strH1o b' = false := occursIn_cons_false _ _ _ hb
    cases b' with
    | nil =>
      have hcn : ¬ (c = '\n') := by
        intro hc
        exact hl (by rw [hc]; rfl)
      rw [takeBody_cons, hnp]
      simp [hcn, takeBody]
    | cons d rr =>
      have hlast : (d :: rr).getLast? ≠ some '\n' := by
        rw [List.getLast?_cons_cons] at hl
        exact hl
      have ihr := ih htail hlast
      have hne : (d :: rr).isEmpty = false := rfl
      rw [takeBody_cons, hnp, hne, ihr]
      simp

theorem findItemsAux_nil (fuel : Nat) : findItemsAux fuel [] = [] := by
  cases fuel with
  | zero => rfl
  | succ f => simp [findItemsAux, splitAtSubstr, List.isPrefixOf]

theorem renderBlocks_nil : renderBlocks [] = [] := rfl

theorem renderBlocks_cons (tb : Str × Str) (rest : List (Str × Str)) :
    renderBlocks (tb :: rest) = renderBlock tb ++ renderBlocks rest := rfl

/-- The scanning loop of line 46 recovers exactly the rendered blocks, given
enough fuel. -/
theorem findItemsAux_render (bs : List (Str × Str)) :
    ∀ fuel : Nat, (renderBlocks bs).length < fuel → (∀ tb ∈ bs, blockOk tb) →
    findItemsAux fuel (renderBlocks bs) = bs := by
  induction bs with
  | nil =>
    intro fuel _ _
    rw [renderBlocks_nil]
    exact findItemsAux_nil fuel
  | cons tb rest ih =>
    intro fuel hfuel hwf
    obtain ⟨t, b⟩ := tb
    obtain ⟨hwt, hwb, hwn⟩ := hwf (t, b) (by simp)
    have hwrest : ∀ x ∈ rest, blockOk x := fun x hx => hwf x (by simp [hx])
    have hrb : renderBlocks ((t, b) :: rest) =
        strH1o ++ (t ++ (strH1c ++ (b ++ renderBlocks rest))) := by
      rw [renderBlocks_cons]
      simp [renderBlock, List.append_assoc]
    cases fuel with
    | zero => exact absurd hfuel (Nat.not_lt_zero _)
    | succ f =>
      rw [hrb]
      have hsplit1 : splitAtSubstr strH1o
          (strH1o ++ (t ++ (strH1c ++ (b ++ renderBlocks rest)))) =
          some ([], strH1o ++ (t ++ (strH1c ++ (b ++ renderBlocks rest)))) :=
        splitAtSubstr_self strH1o _ (by simp [strH1o, str])
      have hd4 : (strH1o ++ (t ++ (strH1c ++ (b ++ renderBlocks rest)))).drop 4 =
          t ++ (strH1c ++ (b ++ renderBlocks rest)) := rfl
      have hsplit2 := splitAtSubstr_append_pat strH1c t (b ++ renderBlocks rest)
        (by simp [strH1c, str]) (by rw [strH1c_dropLast]; exact hwt)
      rw [List.append_assoc] at hsplit2
      have hd5 : (strH1c ++ (b ++ renderBlocks rest)).drop 5 = b ++ renderBlocks rest := rfl
      have htb : takeBody (b ++ renderBlocks rest) = (b, renderBlocks rest) := by
        cases rest with
        | nil =>
          rw [renderBlocks_nil, List.append_nil]
          exact takeBody_final b (occursIn_of_append_false _ _ _ hwb) hwn
        | cons tb2 rest' =>
          have hpre2 : strH1o.isPrefixOf (renderBlocks (tb2 :: rest')) = true := by
            rw [renderBlocks_cons]
            have hblk : renderBlock tb2 = strH1o ++ (tb2.1 ++ (strH1c ++ tb2.2)) := by
              simp [renderBlock, List.append_assoc]
            rw [hblk, List.append_assoc]
            exact isPrefixOf_append_self _ _
          have hd : renderBlocks (tb2 :: rest') =
              strH1o ++ (renderBlocks (tb2 :: rest')).drop 4 := by
            rw [isPrefixOf_iff] at hpre2
            conv_lhs => rw [← List.take_append_drop 4 (renderBlocks (tb2 :: rest'))]
            rw [show (4 : Nat) = strH1o.length from rfl, hpre2]
          rw [hd, ← List.append_assoc, takeBody_append_h1 b _ hwb, ← hd]
      have hlen : (renderBlocks rest).length < f := by
        rw [hrb] at hfuel
        simp only [List.length_append] at hfuel
        have h4 : strH1o.length = 4 := rfl
        have h5 : strH1c.length = 5 := rfl
        omega
      have ihr := ih f hlen hwrest
      simp [findItemsAux, hsplit1, hd4, hsplit2, hd5, htb, ihr]

theorem findItems_render (bs : List (Str × Str)) (hwf : ∀ tb ∈ bs, blockOk tb) :
    findItems (renderBlocks bs) = bs :=
  findItemsAux_render bs _ (Nat.lt_succ_self _) hwf

theorem processItems_fst (fmt : Str) (bs : List (Str × Str)) :
    (processItems fmt bs).1 = bs.map (fun tb => (parseBlock fmt tb.1 tb.2).1) := by
  induction bs with
  | nil => rfl
  | cons tb rest ih => simp [processItems, ih]

theorem processItems_length (fmt : Str) (bs : List (Str × Str)) :
    (processItems fmt bs).1.length = bs.length := by
  rw [processItems_fst]
  exact List.length_map bs _

/-- Extraction on a well-formed rendered document is exactly the per-block
pipeline applied to each block. -/
theorem parse_markdown_render (fmt : Str) (bs : List (Str × Str)) (hne : bs ≠ [])
    (hwf : ∀ tb ∈ bs, blockOk tb) :
    parse_markdown (renderBlocks bs) fmt = Except.ok (processItems fmt bs) := by
  have hf := findItems_render bs hwf
  cases bs with
  | nil => exact absurd rfl hne
  | cons tb rest => simp [parse_markdown, hf]

/-! ## Lemmas on the labeled-line searches -/

theorem strCategories_dropLast : strCategories.dropLast = str ("Categories") := rfl

theorem strAuthor_dropLast : strAuthor.dropLast = str ("Author") := rfl

theorem splitLine_append (L b2 : Str) (hL : '\n' ∉ L) :
    splitLine (L ++ '\n' :: b2) = (L, b2) := by
  induction L with
  | nil => simp [splitLine]
  | cons c L' ih =>
    have hc : ¬ (c = '\n') := by
      intro h
      exact hL (by rw [h]; exact List.mem_cons_self _ _)
    have ih2 := ih (fun h => hL (List.mem_cons_of_mem c h))
    simp [splitLine, hc, ih2]

theorem findLabeled_absent (label s : Str) (h : occursIn label s = false) :
    findLabeled label s = none := by
  unfold findLabeled
  cases hs : splitAtSubstr label s with
  | none => rfl
  | some v =>
    rw [occursIn, hs] at h
    cases h

/-- Dropping a leading run in which every character satisfies the predicate
skips past that run. -/
theorem dropWhile_append_of_all (p : Char → Bool) (w t : Str) (hw : w.all p = true) :
    (w ++ t).dropWhile p = t.dropWhile p := by
  induction w with
  | nil => simp
  | cons c w2 ih =>
    rw [List.all_cons] at hw
    obtain ⟨hc, hw2⟩ := Bool.and_eq_true_iff.mp hw
    rw [List.cons_append, List.dropWhile_cons, hc]
    simp [ih hw2]

/-- When the label occurs first at the block shown and, after a whitespace
run, a non-whitespace character follows on the same line, the regex captures
exactly the rest of that line and consumes its newline. -/
theorem findLabeled_present (label pre w : Str) (c : Char) (L' b2 : Str)
    (hp : label ≠ [])
    (hocc : occursIn label (pre ++ label.dropLast) = false)
    (hw : w.all isPySpace = true)
    (hc : isPySpace c = false) (hnl : '\n' ∉ c :: L') :
    findLabeled label (pre ++ label ++ (w ++ ((c :: L') ++ '\n' :: b2))) =
      some (pre, c :: L', b2) := by
  unfold findLabeled
  rw [splitAtSubstr_append_pat label pre _ hp hocc]
  have hdrop : (label ++ (w ++ ((c :: L') ++ '\n' :: b2))).drop label.length =
      w ++ ((c :: L') ++ '\n' :: b2) := List.drop_left _ _
  have hdw : (w ++ ((c :: L') ++ '\n' :: b2)).dropWhile isPySpace =
      (c :: L') ++ '\n' :: b2 := by
    rw [dropWhile_append_of_all isPySpace w _ hw, List.cons_append,
      List.dropWhile_cons, hc]
    simp
  have hsl : splitLine ((c :: L') ++ '\n' :: b2) = (c :: L', b2) :=
    splitLine_append _ _ hnl
  simp only [hdrop, hdw, hsl]

/-- When everything after the label up to the end of the content is
whitespace, greedy `\s*` consumes all of it and the captured group is
empty. -/
theorem findLabeled_trailing_ws (label pre w : Str) (hp : label ≠ [])
    (hocc : occursIn label (pre ++ label.dropLast) = false)
    (hw : w.all isPySpace = true) :
    findLabeled label (pre ++ label ++ w) = some (pre, [], []) := by
  unfold findLabeled
  rw [splitAtSubstr_append_pat label pre _ hp hocc]
  have hdrop : (label ++ w).drop label.length = w := List.drop_left _ _
  have hdw : w.dropWhile isPySpace = [] := by
    rw [List.dropWhile_eq_nil_iff]
    intro a ha
    exact List.all_eq_true.mp hw a ha
  simp only [hdrop, hdw]
  simp [splitLine]

/-! ## Lemmas on the date search and the comma split -/

theorem findDate_decomp (s : Str) :
    ∀ pre w ds post : Str, findDate s = some (pre, w, ds, post) →
    s = pre ++ w ++ ds ++ post := by
  induction s with
  | nil => intro pre w ds post h; cases h
  | cons c r ih =>
    intro pre w ds post h
    simp only [findDate] at h
    by_cases hd : dateAt10 ((c :: r).dropWhile isPySpace) = true
    · rw [if_pos hd] at h
      simp only [Option.some.injEq, Prod.mk.injEq] at h
      obtain ⟨h1, h2, h3, h4⟩ := h
      subst h1
      subst h2
      subst h3
      subst h4
      simp only [List.nil_append]
      rw [List.append_assoc, List.take_append_drop, List.takeWhile_append_dropWhile]
    · rw [if_neg hd] at h
      cases hr : findDate r with
      | none => rw [hr] at h; cases h
      | some q =>
        obtain ⟨qp, qw, qd, qpost⟩ := q
        rw [hr] at h
        simp only [Option.some.injEq, Prod.mk.injEq] at h
        obtain ⟨h1, h2, h3, h4⟩ := h
        subst h1
        subst h2
        subst h3
        subst h4
        have hrec := ih qp qw qd qpost hr
        subst hrec
        simp [List.append_assoc]

theorem splitOnComma_ne_nil (s : Str) : splitOnComma s ≠ [] := by
  cases s with
  | nil => simp [splitOnComma]
  | cons c r =>
    simp only [splitOnComma]
    by_cases hc : c = ','
    · simp [hc]
    · rw [if_neg hc]
      cases hs : splitOnComma r with
      | nil => simp
      | cons g gs => simp

theorem occursIn_middle (u x v : Str) (hx : x ≠ []) :
    occursIn x (u ++ (x ++ v)) = true := by
  induction u with
  | nil =>
    rw [List.nil_append, occursIn, splitAtSubstr_self x v hx]
    rfl
  | cons c u' ih =>
    rw [List.cons_append, occursIn_cons, ih]
    simp

/-! ## Computation lemmas for the per-block steps -/

theorem dateStep_none (fmt t b : Str) (h : findDate b = none) :
    dateStep fmt t b = (none, b, [LogEvent.noDate t]) := by
  unfold dateStep
  rw [h]

theorem dateStep_found_ok (fmt t b pre w ds post : Str) (dt : DateTime)
    (h : findDate b = some (pre, w, ds, post)) (hp : strptime ds fmt = some dt) :
    dateStep fmt t b = (some dt, pre ++ post, []) := by
  unfold dateStep
  rw [h]
  simp [hp]

theorem dateStep_found_bad (fmt t b pre w ds post : Str)
    (h : findDate b = some (pre, w, ds, post)) (hp : strptime ds fmt = none) :
    dateStep fmt t b = (none, b, [LogEvent.invalidDate t fmt]) := by
  unfold dateStep
  rw [h]
  simp [hp]

theorem categoriesStep_absent (b : Str) (h : occursIn strCategories b = false) :
    categoriesStep b = ([], b) := by
  unfold categoriesStep
  rw [findLabeled_absent _ _ h]

theorem categoriesStep_present (pre w : Str) (c : Char) (L' b2 : Str)
    (hocc : occursIn strCategories (pre ++ str ("Categories")) = false)
    (hw : w.all isPySpace = true)
    (hc : isPySpace c = false) (hnl : '\n' ∉ c :: L') :
    categoriesStep (pre ++ strCategories ++ (w ++ ((c :: L') ++ '\n' :: b2))) =
      ((splitOnComma (c :: L')).map pyStrip, pre ++ b2) := by
  unfold categoriesStep
  rw [findLabeled_present strCategories pre w c L' b2 (by simp [strCategories, str])
    (by rw [strCategories_dropLast]; exact hocc) hw hc hnl]

theorem categoriesStep_trailing_ws (pre w : Str)
    (hocc : occursIn strCategories (pre ++ str ("Categories")) = false)
    (hw : w.all isPySpace = true) :
    categoriesStep (pre ++ strCategories ++ w) = ([[]], pre) := by
  unfold categoriesStep
  rw [findLabeled_trailing_ws strCategories pre w (by simp [strCategories, str])
    (by rw [strCategories_dropLast]; exact hocc) hw]
  simp [splitOnComma, pyStrip]

theorem authorStep_absent (b : Str) (h : occursIn strAuthor b = false) :
    authorStep b = (none, b) := by
  unfold authorStep
  rw [findLabeled_absent _ _ h]

/-! ## Computation lemmas for the serializer -/

theorem findItems_of_no_h1 (html : Str) (h : occursIn strH1o html = false) :
    findItems html = [] := by
  unfold findItems
  have hs : splitAtSubstr strH1o html = none := by
    rw [occursIn] at h
    cases hs : splitAtSubstr strH1o html with
    | none => rfl
    | some v => rw [hs] at h; cases h
  simp [findItemsAux, hs]

theorem parse_markdown_no_h1 (html fmt : Str) (h : occursIn strH1o html = false) :
    parse_markdown html fmt = Except.error MdError.noArticles := by
  simp [parse_markdown, findItems_of_no_h1 html h]

theorem markdown_to_rss_error (now : DateTime) (html ft fd fl fmt : Str)
    (e : MdError) (h : parse_markdown html fmt = Except.error e) :
    markdown_to_rss now html ft fd fl fmt =
      (Except.error e, [LogEvent.errorGenerating]) := by
  unfold markdown_to_rss
  rw [h]

theorem markdown_to_rss_ok (now : DateTime) (html ft fd fl fmt : Str)
    (arts : List Article) (lgs : List LogEvent)
    (h : parse_markdown html fmt = Except.ok (arts, lgs)) :
    markdown_to_rss now html ft fd fl fmt =
      (Except.ok (xmlDecl ++ str ("<rss version=\"2.0\"><channel>") ++
        renderTextEl (str ("title")) (escape ft) ++
        renderTextEl (str ("description")) (escape fd) ++
        renderTextEl (str ("link")) (escape fl) ++
        ((arts.map (renderItem now)).map Prod.fst).flatten ++
        str ("</channel></rss>")),
       lgs ++ ((arts.map (renderItem now)).map Prod.snd).flatten) := by
  unfold markdown_to_rss
  rw [h]

theorem renderItem_no_date (now : DateTime) (a : Article) (h : a.date = none) :
    (∃ u v, (renderItem now a).1 =
      u ++ (renderTextEl (str ("pubDate")) (fmtRfc822 now) ++ v)) ∧
    (renderItem now a).2 = [LogEvent.usingCurrent a.title] := by
  unfold renderItem
  rw [h]
  constructor
  · refine ⟨str ("<item>") ++ (renderTextEl (str ("title")) a.title ++
      renderTextEl (str ("description")) a.content),
      (a.categories.map (fun c => renderTextEl (str ("category")) (escape c))).flatten ++
      ((match a.author with
        | some au => if au.isEmpty then [] else renderTextEl (str ("author")) (escape au)
        | none => []) ++ str ("</item>")), ?_⟩
    simp [List.append_assoc]
  · rfl

theorem renderItem_with_date (now : DateTime) (a : Article) (dt : DateTime)
    (h : a.date = some dt) :
    (∃ u v, (renderItem now a).1 =
      u ++ (renderTextEl (str ("pubDate")) (fmtRfc822 dt) ++ v)) ∧
    (renderItem now a).2 = [] := by
  unfold renderItem
  rw [h]
  constructor
  · refine ⟨str ("<item>") ++ (renderTextEl (str ("title")) a.title ++
      renderTextEl (str ("description")) a.content),
      (a.categories.map (fun c => renderTextEl (str ("category")) (escape c))).flatten ++
      ((match a.author with
        | some au => if au.isEmpty then [] else renderTextEl (str ("author")) (escape au)
        | none => []) ++ str ("</item>")), ?_⟩
    simp [List.append_assoc]
  · rfl

theorem occursIn_self (x : Str) (hx : x ≠ []) : occursIn x x = true := by
  have h := splitAtSubstr_self x [] hx
  rw [List.append_nil] at h
  rw [occursIn, h]
  rfl

theorem occursIn_append_right (x p s : Str) (h : occursIn x s = true) :
    occursIn x (p ++ s) = true := by
  induction p with
  | nil => simpa using h
  | cons c p' ih =>
    rw [List.cons_append, occursIn_cons, ih]
    simp

/-- Unfolding of the per-block pipeline into its stages. -/
theorem parseBlock_eq (fmt t b : Str) :
    parseBlock fmt t b =
      (⟨escape (pyStrip t),
        pyStrip (sanitize_html (authorStep (categoriesStep (dateStep fmt t b).2.1).2).2),
        (dateStep fmt t b).1,
        (categoriesStep (dateStep fmt t b).2.1).1,
        (authorStep (categoriesStep (dateStep fmt t b).2.1).2).1⟩,
       (dateStep fmt t b).2.2) := rfl

/-- One step of the sanitizer on a nonempty input. -/
theorem sanitizeAux_cons (fuel : Nat) (c : Char) (r : Str) :
    sanitizeAux (fuel + 1) (c :: r) =
      if c = '<' then
        (match parseTag r with
         | some (t, rest) =>
           (if allowed_tags.contains t.name then
              renderTagTok ⟨t.closing, t.name,
                t.attrs.filter (fun p => (allowedAttrsFor t.name).contains p.1)⟩ false
            else renderTagTok t true) ++ sanitizeAux fuel rest
         | none => str ("&lt;") ++ sanitizeAux fuel r)
      else if c = '&' then
        (match entityAt r with
         | some (ent, rest) => '&' :: ent ++ sanitizeAux fuel rest
         | none => str ("&amp;") ++ sanitizeAux fuel r)
      else if c = '>' then str ("&gt;") ++ sanitizeAux fuel r
      else c :: sanitizeAux fuel r := rfl

/-- The sanitizer copies markup-free text verbatim: bleach escapes nothing in
text that contains none of the special characters. -/
theorem sanitizeAux_plain_append (s : Str) (hlt : '<' ∉ s) (ham : '&' ∉ s)
    (hgt : '>' ∉ s) :
    ∀ (t : Str) (fuel : Nat),
      sanitizeAux (s.length + fuel) (s ++ t) = s ++ sanitizeAux fuel t := by
  induction s with
  | nil => intro t fuel; simp
  | cons c s' ih =>
    intro t fuel
    have hc1 : ¬ (c = '<') := fun h => hlt (by rw [h]; exact List.mem_cons_self _ _)
    have hc2 : ¬ (c = '&') := fun h => ham (by rw [h]; exact List.mem_cons_self _ _)
    have hc3 : ¬ (c = '>') := fun h => hgt (by rw [h]; exact List.mem_cons_self _ _)
    have hn : (c :: s').length + fuel = (s'.length + fuel) + 1 := by
      simp [List.length_cons]
      omega
    rw [hn, List.cons_append, sanitizeAux_cons, if_neg hc1, if_neg hc2, if_neg hc3]
    rw [ih (fun h => hlt (List.mem_cons_of_mem c h))
          (fun h => ham (List.mem_cons_of_mem c h))
          (fun h => hgt (List.mem_cons_of_mem c h)) t fuel]
    rfl

/-! ## The claims -/

/-- C1: for every rendered input consisting of N top-level heading blocks
(N at least 1, each block well formed), `parse_markdown` returns exactly N
`Article` records, one per block in document order, each computed from its
own block by the per-block pipeline — in particular the last block's body
(the trailing content) is processed like every other. -/
theorem c1_extraction_blocks (fmt : Str) (bs : List (Str × Str))
    (hne : bs ≠ []) (hwf : ∀ tb ∈ bs, blockOk tb) :
    parse_markdown (renderBlocks bs) fmt = Except.ok (processItems fmt bs) ∧
    (processItems fmt bs).1.length = bs.length ∧
    (processItems fmt bs).1 = bs.map (fun tb => (parseBlock fmt tb.1 tb.2).1) :=
  ⟨parse_markdown_render fmt bs hne hwf, processItems_length fmt bs,
   processItems_fst fmt bs⟩

/-- Witness for C1 at a concrete two-block document. -/
theorem c1_extraction_blocks_witness :
    parse_markdown (renderBlocks [(str ("A"), str ("<p>a</p>")), (str ("B"), str ("<p>b</p>"))])
        (str ("%Y-%m-%d")) =
      Except.ok (processItems (str ("%Y-%m-%d"))
        [(str ("A"), str ("<p>a</p>")), (str ("B"), str ("<p>b</p>"))]) ∧
    (processItems (str ("%Y-%m-%d"))
        [(str ("A"), str ("<p>a</p>")), (str ("B"), str ("<p>b</p>"))]).1.length =
      [(str ("A"), str ("<p>a</p>")), (str ("B"), str ("<p>b</p>"))].length ∧
    (processItems (str ("%Y-%m-%d"))
        [(str ("A"), str ("<p>a</p>")), (str ("B"), str ("<p>b</p>"))]).1 =
      [(str ("A"), str ("<p>a</p>")), (str ("B"), str ("<p>b</p>"))].map
        (fun tb => (parseBlock (str ("%Y-%m-%d")) tb.1 tb.2).1) :=
  c1_extraction_blocks (str ("%Y-%m-%d"))
    [(str ("A"), str ("<p>a</p>")), (str ("B"), str ("<p>b</p>"))]
    (by decide) (by decide)

/-- C5: for every rendered input containing no top-level heading at all,
extraction fails with the parsing error, `markdown_to_rss` propagates it
after logging, and no feed document is produced. -/
theorem c5_zero_blocks (now : DateTime) (html ft fd fl fmt : Str)
    (h : occursIn strH1o html = false) :
    parse_markdown html fmt = Except.error MdError.noArticles ∧
    markdown_to_rss now html ft fd fl fmt =
      (Except.error MdError.noArticles, [LogEvent.errorGenerating]) := by
  have hp := parse_markdown_no_h1 html fmt h
  exact ⟨hp, markdown_to_rss_error now html ft fd fl fmt _ hp⟩

/-- Witness for C5 at a concrete heading-free document. -/
theorem c5_zero_blocks_witness :
    parse_markdown (str ("<p>no headings</p>")) (str ("%Y-%m-%d")) =
      Except.error MdError.noArticles ∧
    markdown_to_rss ⟨2024, 1, 1, 0, 0, 0⟩ (str ("<p>no headings</p>")) (str ("F"))
        (str ("D")) (str ("L")) (str ("%Y-%m-%d")) =
      (Except.error MdError.noArticles, [LogEvent.errorGenerating]) :=
  c5_zero_blocks ⟨2024, 1, 1, 0, 0, 0⟩ (str ("<p>no headings</p>")) (str ("F"))
    (str ("D")) (str ("L")) (str ("%Y-%m-%d")) (by decide)

/-- C2 counterexample: on the block `x 2024/01/15 y` with format `%Y-%m-%d`
the date pattern matches but `strptime` fails, and the matched substring is
NOT removed from the record's body (line 59 sits after `strptime` inside the
`try`, so it never runs on a parse failure); the claim asserts the substring
is removed even then, which is false here. -/
theorem c2_counterexample :
    parse_markdown (str ("<h1>T</h1>x 2024/01/15 y")) (str ("%Y-%m-%d")) =
      Except.ok ([⟨str ("T"), str ("x 2024/01/15 y"), none, [], none⟩],
        [LogEvent.invalidDate (str ("T")) (str ("%Y-%m-%d"))]) ∧
    occursIn (str ("2024/01/15")) (str ("x 2024/01/15 y")) = true := by
  exact ⟨by decide, by decide⟩

/-- C2 amended: when the date pattern matches, the matched substring is
removed from the body only when parsing succeeds; on a parse failure the
body is left unchanged (the matched substring stays), the date is absent, a
warning naming the article is emitted, and the run continues. -/
theorem c2_amended (fmt t content pre w ds post : Str)
    (h : findDate content = some (pre, w, ds, post)) :
    content = pre ++ w ++ ds ++ post ∧
    (∀ dt : DateTime, strptime ds fmt = some dt →
      dateStep fmt t content = (some dt, pre ++ post, [])) ∧
    (strptime ds fmt = none →
      dateStep fmt t content = (none, content, [LogEvent.invalidDate t fmt]) ∧
      (parseBlock fmt t content).1.date = none ∧
      (parseBlock fmt t content).2 = [LogEvent.invalidDate t fmt]) := by
  refine ⟨findDate_decomp content pre w ds post h,
    fun dt hp => dateStep_found_ok fmt t content pre w ds post dt h hp,
    fun hp => ?_⟩
  have hb := dateStep_found_bad fmt t content pre w ds post h hp
  refine ⟨hb, ?_, ?_⟩
  · rw [parseBlock_eq]
    simp only [hb]
  · rw [parseBlock_eq]
    simp only [hb]

/-- Witness for C2 amended at the counterexample's inputs. -/
theorem c2_amended_witness :
    str ("x 2024/01/15 y") = str ("x") ++ str (" ") ++ str ("2024/01/15") ++ str (" y") ∧
    (∀ dt : DateTime, strptime (str ("2024/01/15")) (str ("%Y-%m-%d")) = some dt →
      dateStep (str ("%Y-%m-%d")) (str ("T")) (str ("x 2024/01/15 y")) =
        (some dt, str ("x") ++ str (" y"), [])) ∧
    (strptime (str ("2024/01/15")) (str ("%Y-%m-%d")) = none →
      dateStep (str ("%Y-%m-%d")) (str ("T")) (str ("x 2024/01/15 y")) =
        (none, str ("x 2024/01/15 y"),
          [LogEvent.invalidDate (str ("T")) (str ("%Y-%m-%d"))]) ∧
      (parseBlock (str ("%Y-%m-%d")) (str ("T")) (str ("x 2024/01/15 y"))).1.date = none ∧
      (parseBlock (str ("%Y-%m-%d")) (str ("T")) (str ("x 2024/01/15 y"))).2 =
        [LogEvent.invalidDate (str ("T")) (str ("%Y-%m-%d"))]) :=
  c2_amended (str ("%Y-%m-%d")) (str ("T")) (str ("x 2024/01/15 y")) (str ("x"))
    (str (" ")) (str ("2024/01/15")) (str (" y")) (by decide)

/-- C9 counterexample: the rendered input with an empty heading yields a
record whose title is empty; it is emitted (not dropped) and the only
diagnostic concerns the missing date — nothing surfaces the empty title,
contradicting the claimed invariant. -/
theorem c9_counterexample :
    parse_markdown (str ("<h1></h1><p>x</p>")) (str ("%Y-%m-%d")) =
      Except.ok ([⟨[], str ("<p>x</p>"), none, [], none⟩], [LogEvent.noDate []]) ∧
    pyStrip ([] : Str) = [] := by
  exact ⟨by decide, by decide⟩

/-- C9 amended: a heading with empty inner text still produces a record,
with the empty (trimmed, escaped) title, and the article is not dropped; no
dedicated diagnostic is emitted for the empty title. -/
theorem c9_amended (fmt b : Str)
    (hb : occursIn strH1o (b ++ str ("<h1")) = false)
    (hn : b.getLast? ≠ some '\n') :
    parse_markdown (strH1o ++ strH1c ++ b) fmt =
      Except.ok (processItems fmt [([], b)]) ∧
    (processItems fmt [([], b)]).1.length = 1 ∧
    (parseBlock fmt [] b).1.title = [] := by
  have hwf : ∀ tb ∈ [(([] : Str), b)], blockOk tb := by
    intro tb htb
    simp only [List.mem_singleton] at htb
    rw [htb]
    exact ⟨(by decide : occursIn strH1c ([] ++ str ("</h1")) = false), hb, hn⟩
  have h1 := parse_markdown_render fmt [([], b)] (by simp) hwf
  have hrb : renderBlocks [(([] : Str), b)] = strH1o ++ strH1c ++ b := by
    simp [renderBlocks, renderBlock, List.append_assoc]
  rw [hrb] at h1
  refine ⟨h1, by rw [processItems_length]; rfl, rfl⟩

/-- Witness for C9 amended at a concrete empty-titled block. -/
theorem c9_amended_witness :
    parse_markdown (strH1o ++ strH1c ++ str ("<p>x</p>")) (str ("%Y-%m-%d")) =
      Except.ok (processItems (str ("%Y-%m-%d")) [([], str ("<p>x</p>"))]) ∧
    (processItems (str ("%Y-%m-%d")) [([], str ("<p>x</p>"))]).1.length = 1 ∧
    (parseBlock (str ("%Y-%m-%d")) [] (str ("<p>x</p>"))).1.title = [] :=
  c9_amended (str ("%Y-%m-%d")) (str ("<p>x</p>")) (by decide) (by decide)

/-- C6: the categories regex of line 70 runs on the block's content as it
stands after the date step of lines 54-65, whatever that step did (stripped
a parsed date, kept a malformed one, or found none).  When that content
contains a `Categories:` line, the record's categories are exactly the
comma-split, trimmed labels and the matched span is removed before the
author step and the sanitizer see the body; when it contains no such line,
the categories are empty and the body is untouched by this step.  The final
conjunct checks the split-and-trim on the claim's own `A, B, C` example. -/
theorem c6_categories (fmt : Str) :
    (∀ (t b pre w : Str) (c : Char) (L' b2 : Str),
      (dateStep fmt t b).2.1 = pre ++ strCategories ++ (w ++ ((c :: L') ++ '\n' :: b2)) →
      occursIn strCategories (pre ++ str ("Categories")) = false →
      w.all isPySpace = true →
      isPySpace c = false → '\n' ∉ c :: L' →
      categoriesStep ((dateStep fmt t b).2.1) =
        ((splitOnComma (c :: L')).map pyStrip, pre ++ b2) ∧
      (parseBlock fmt t b).1.categories = (splitOnComma (c :: L')).map pyStrip ∧
      (parseBlock fmt t b).1.content =
        pyStrip (sanitize_html (authorStep (pre ++ b2)).2) ∧
      (parseBlock fmt t b).1.author = (authorStep (pre ++ b2)).1) ∧
    (∀ (t b : Str),
      occursIn strCategories ((dateStep fmt t b).2.1) = false →
      categoriesStep ((dateStep fmt t b).2.1) = ([], (dateStep fmt t b).2.1) ∧
      (parseBlock fmt t b).1.categories = []) ∧
    (splitOnComma (str ("A, B, C"))).map pyStrip =
      [str ("A"), str ("B"), str ("C")] := by
  refine ⟨?_, ?_, by decide⟩
  · intro t b pre w c L' b2 h1 h2 h3 h4 h5
    have e2 := categoriesStep_present pre w c L' b2 h2 h3 h4 h5
    rw [← h1] at e2
    refine ⟨e2, ?_, ?_, ?_⟩ <;> rw [parseBlock_eq] <;> simp only [e2]
  · intro t b h
    have e2 := categoriesStep_absent _ h
    refine ⟨e2, ?_⟩
    rw [parseBlock_eq]
    simp only [e2]

/-- Witness for C6 at a block containing both a date line and a
`Categories: tech, news` line (the spec's end-to-end combination): the date
is parsed and stripped first, then the categories line is matched and
removed. -/
theorem c6_categories_witness :
    categoriesStep ((dateStep (str ("%Y-%m-%d")) (str ("T"))
        (str ("\n2024-01-15\nCategories: tech, news\n<p>z</p>"))).2.1) =
      ((splitOnComma ('t' :: str ("ech, news"))).map pyStrip,
       str ("\n") ++ str ("<p>z</p>")) ∧
    (parseBlock (str ("%Y-%m-%d")) (str ("T"))
        (str ("\n2024-01-15\nCategories: tech, news\n<p>z</p>"))).1.categories =
      (splitOnComma ('t' :: str ("ech, news"))).map pyStrip ∧
    (parseBlock (str ("%Y-%m-%d")) (str ("T"))
        (str ("\n2024-01-15\nCategories: tech, news\n<p>z</p>"))).1.content =
      pyStrip (sanitize_html (authorStep (str ("\n") ++ str ("<p>z</p>"))).2) ∧
    (parseBlock (str ("%Y-%m-%d")) (str ("T"))
        (str ("\n2024-01-15\nCategories: tech, news\n<p>z</p>"))).1.author =
      (authorStep (str ("\n") ++ str ("<p>z</p>"))).1 :=
  (c6_categories (str ("%Y-%m-%d"))).1 (str ("T"))
    (str ("\n2024-01-15\nCategories: tech, news\n<p>z</p>")) (str ("\n")) (str (" "))
    't' (str ("ech, news")) (str ("<p>z</p>")) (by decide) (by decide) (by decide)
    (by decide) (by decide)

/-- C7: an article block with no date still produces its record (never
omitted) with an absent date and a warning naming the article; serialization
substitutes the current wall-clock time as that item's publish date and logs
which article it affected; and whenever extraction succeeds the whole
conversion still succeeds — the per-article anomaly never aborts the run. -/
theorem c7_missing_date (fmt : Str) :
    (∀ (t b : Str), findDate b = none →
      parseBlock fmt t b =
        (⟨escape (pyStrip t),
          pyStrip (sanitize_html (authorStep (categoriesStep b).2).2),
          none,
          (categoriesStep b).1,
          (authorStep (categoriesStep b).2).1⟩, [LogEvent.noDate t])) ∧
    (∀ (now : DateTime) (a : Article), a.date = none →
      (∃ u v, (renderItem now a).1 =
        u ++ (renderTextEl (str ("pubDate")) (fmtRfc822 now) ++ v)) ∧
      (renderItem now a).2 = [LogEvent.usingCurrent a.title]) ∧
    (∀ (now : DateTime) (html ft fd fl : Str) (res : List Article × List LogEvent),
      parse_markdown html fmt = Except.ok res →
      ∃ out slogs, markdown_to_rss now html ft fd fl fmt =
        (Except.ok out, res.2 ++ slogs)) := by
  refine ⟨?_, ?_, ?_⟩
  · intro t b h
    have e1 := dateStep_none fmt t b h
    rw [parseBlock_eq]
    simp only [e1]
  · intro now a h
    exact renderItem_no_date now a h
  · intro now html ft fd fl res h
    obtain ⟨arts, lgs⟩ := res
    exact ⟨_, _, markdown_to_rss_ok now html ft fd fl fmt arts lgs h⟩

/-- Witness for C7 at a concrete dateless block and article. -/
theorem c7_missing_date_witness :
    parseBlock (str ("%Y-%m-%d")) (str ("T")) (str ("<p>x</p>")) =
      (⟨escape (pyStrip (str ("T"))),
        pyStrip (sanitize_html (authorStep (categoriesStep (str ("<p>x</p>"))).2).2),
        none,
        (categoriesStep (str ("<p>x</p>"))).1,
        (authorStep (categoriesStep (str ("<p>x</p>"))).2).1⟩,
       [LogEvent.noDate (str ("T"))]) ∧
    ((∃ u v, (renderItem ⟨2024, 1, 1, 0, 0, 0⟩ ⟨str ("T"), [], none, [], none⟩).1 =
        u ++ (renderTextEl (str ("pubDate")) (fmtRfc822 ⟨2024, 1, 1, 0, 0, 0⟩) ++ v)) ∧
      (renderItem ⟨2024, 1, 1, 0, 0, 0⟩ ⟨str ("T"), [], none, [], none⟩).2 =
        [LogEvent.usingCurrent (str ("T"))]) :=
  ⟨(c7_missing_date (str ("%Y-%m-%d"))).1 (str ("T")) (str ("<p>x</p>")) (by decide),
   (c7_missing_date (str ("%Y-%m-%d"))).2.1 ⟨2024, 1, 1, 0, 0, 0⟩
     ⟨str ("T"), [], none, [], none⟩ rfl⟩

/-- C10: whenever the `Categories:` pattern matches, the resulting category
sequence is never empty; when only whitespace follows the label to the end
of the content, the categories are exactly one empty label and the matched
span is removed; and serializing an article whose categories are one empty
label emits one empty `category` element. -/
theorem c10_empty_categories :
    (∀ b : Str, (findLabeled strCategories b).isSome = true →
      (categoriesStep b).1 ≠ []) ∧
    (∀ pre w : Str, occursIn strCategories (pre ++ str ("Categories")) = false →
      w.all isPySpace = true →
      categoriesStep (pre ++ strCategories ++ w) = ([[]], pre)) ∧
    (∀ (now : DateTime) (a : Article), a.categories = [[]] →
      occursIn (str ("<category />")) (renderItem now a).1 = true) := by
  refine ⟨?_, ?_, ?_⟩
  · intro b h hnil
    unfold categoriesStep at hnil
    cases hf : findLabeled strCategories b with
    | none => rw [hf] at h; cases h
    | some v =>
      obtain ⟨p, g, q⟩ := v
      rw [hf] at hnil
      simp only [] at hnil
      rw [List.map_eq_nil_iff] at hnil
      exact splitOnComma_ne_nil g hnil
  · intro pre w h1 h2
    exact categoriesStep_trailing_ws pre w h1 h2
  · intro now a hc
    have hcat : (([[]] : List Str).map
        (fun c => renderTextEl (str ("category")) (escape c))).flatten =
        str ("<category />") := by decide
    simp only [renderItem, hc, hcat]
    apply occursIn_append_left
    apply occursIn_append_left
    apply occursIn_append_right
    exact occursIn_self _ (by decide)

/-- Witness for C10 at a whitespace-tailed label and a concrete article. -/
theorem c10_empty_categories_witness :
    categoriesStep (str ("x\n") ++ strCategories ++ str ("  ")) = ([[]], str ("x\n")) ∧
    occursIn (str ("<category />"))
      (renderItem ⟨2024, 1, 1, 0, 0, 0⟩ ⟨str ("T"), [], none, [[]], none⟩).1 = true :=
  ⟨c10_empty_categories.2.1 (str ("x\n")) (str ("  ")) (by decide) (by decide),
   c10_empty_categories.2.2 ⟨2024, 1, 1, 0, 0, 0⟩ ⟨str ("T"), [], none, [[]], none⟩ rfl⟩

/-- Sanitizing a disallowed `script` element escapes the tags rather than
removing them, leaving the raw-text content escaped in place
(`bleach.clean` with the default `strip=False`). -/
theorem sanitize_script (s : Str) (hlt : '<' ∉ s) (ham : '&' ∉ s) (hgt : '>' ∉ s) :
    sanitize_html (str ("<script>") ++ s ++ str ("</script>")) =
      str ("&lt;script&gt;") ++ s ++ str ("&lt;/script&gt;") := by
  unfold sanitize_html
  have hlen : (str ("<script>") ++ s ++ str ("</script>")).length = (s.length + 16) + 1 := by
    rw [List.length_append, List.length_append]
    rw [show (str ("<script>")).length = 8 from rfl,
       show (str ("</script>")).length = 9 from rfl]
    omega
  rw [hlen]
  have hshape : str ("<script>") ++ s ++ str ("</script>") =
      '<' :: (str ("script>") ++ (s ++ str ("</script>"))) := by
    rw [List.append_assoc]
    rfl
  rw [hshape, sanitizeAux_cons, if_pos rfl]
  have hpt : parseTag (str ("script>") ++ (s ++ str ("</script>"))) =
      some (⟨false, str ("script"), []⟩, s ++ str ("</script>")) := rfl
  have hct : allowed_tags.contains (str ("script")) = false := by decide
  have hrt : renderTagTok ⟨false, str ("script"), []⟩ true = str ("&lt;script&gt;") := by
    decide
  have hplain := sanitizeAux_plain_append s hlt ham hgt (str ("</script>")) 16
  have hend : sanitizeAux 16 (str ("</script>")) = str ("&lt;/script&gt;") := by decide
  simp only [hpt, hct, Bool.false_eq_true, if_false, hrt, hplain, hend]
  simp [List.append_assoc]

/-- Sanitizing an allowed `em` element preserves the tags and the content. -/
theorem sanitize_em (s : Str) (hlt : '<' ∉ s) (ham : '&' ∉ s) (hgt : '>' ∉ s) :
    sanitize_html (str ("<em>") ++ s ++ str ("</em>")) =
      str ("<em>") ++ s ++ str ("</em>") := by
  unfold sanitize_html
  have hlen : (str ("<em>") ++ s ++ str ("</em>")).length = (s.length + 8) + 1 := by
    rw [List.length_append, List.length_append]
    rw [show (str ("<em>")).length = 4 from rfl,
       show (str ("</em>")).length = 5 from rfl]
    omega
  rw [hlen]
  have hshape : str ("<em>") ++ s ++ str ("</em>") =
      '<' :: (str ("em>") ++ (s ++ str ("</em>"))) := by
    rw [List.append_assoc]
    rfl
  rw [hshape, sanitizeAux_cons, if_pos rfl]
  have hpt : parseTag (str ("em>") ++ (s ++ str ("</em>"))) =
      some (⟨false, str ("em"), []⟩, s ++ str ("</em>")) := rfl
  have hct : allowed_tags.contains (str ("em")) = true := by decide
  have hrt : renderTagTok ⟨false, str ("em"),
      List.filter (fun p => (allowedAttrsFor (str ("em"))).contains p.1) []⟩ false =
      str ("<em>") := by decide
  have hplain := sanitizeAux_plain_append s hlt ham hgt (str ("</em>")) 8
  have hend : sanitizeAux 8 (str ("</em>")) = str ("</em>") := by decide
  simp only [hpt, hct, if_true, hrt, hplain, hend]
  rfl

/-- C4 counterexample: the sanitizer does not remove a disallowed `script`
element — with `bleach.clean`'s default `strip=False` it escapes it, so the
output is neither the unwrapped content nor empty, and the tag name is still
present (escaped) in the output; the claim's "removes (does not merely
escape)" is false. -/
theorem c4_counterexample :
    sanitize_html (str ("<script>x</script>")) = str ("&lt;script&gt;x&lt;/script&gt;") ∧
    sanitize_html (str ("<script>x</script>")) ≠ str ("x") ∧
    sanitize_html (str ("<script>x</script>")) ≠ str ("") ∧
    occursIn (str ("script")) (sanitize_html (str ("<script>x</script>"))) = true := by
  exact ⟨by decide, by decide, by decide, by decide⟩

/-- C4 amended: sanitization escapes (rather than removes) every tag outside
the allow-list, so a disallowed tag never appears verbatim (unescaped) in
the output, while an allowed tag such as emphasis is preserved with its
content, and attributes outside the allow-list are discarded while allowed
ones are kept. -/
theorem c4_amended :
    (∀ s : Str, '<' ∉ s → '&' ∉ s → '>' ∉ s →
      sanitize_html (str ("<script>") ++ s ++ str ("</script>")) =
        str ("&lt;script&gt;") ++ s ++ str ("&lt;/script&gt;") ∧
      sanitize_html (str ("<em>") ++ s ++ str ("</em>")) =
        str ("<em>") ++ s ++ str ("</em>")) ∧
    sanitize_html (str ("<a href=\"u\" onclick=\"evil()\">t</a>")) =
      str ("<a href=\"u\">t</a>") ∧
    occursIn (str ("<script")) (sanitize_html (str ("<script>alert(1)</script>"))) = false := by
  exact ⟨fun s h1 h2 h3 => ⟨sanitize_script s h1 h2 h3, sanitize_em s h1 h2 h3⟩,
    by decide, by decide⟩

/-- Witness for C4 amended at a concrete script body. -/
theorem c4_amended_witness :
    sanitize_html (str ("<script>") ++ str ("alert(1)") ++ str ("</script>")) =
      str ("&lt;script&gt;") ++ str ("alert(1)") ++ str ("&lt;/script&gt;") ∧
    sanitize_html (str ("<em>") ++ str ("alert(1)") ++ str ("</em>")) =
      str ("<em>") ++ str ("alert(1)") ++ str ("</em>") :=
  c4_amended.1 (str ("alert(1)")) (by decide) (by decide) (by decide)

/-- C3 counterexample: a title containing `<` and `&` is escaped once by the
extractor and escaped again by the serializer, so the feed text contains the
double-escaped `A&amp;lt;&amp;amp;B` and not the singly-escaped
`A&lt;&amp;B` the claim requires. -/
theorem c3_counterexample :
    (markdown_to_rss ⟨2024, 1, 1, 0, 0, 0⟩ (str ("<h1>A<&B</h1> 2024-01-15"))
        (str ("F")) (str ("D")) (str ("L")) (str ("%Y-%m-%d"))).2 = [] ∧
    occursIn (str ("A&amp;lt;&amp;amp;B"))
      ((markdown_to_rss ⟨2024, 1, 1, 0, 0, 0⟩ (str ("<h1>A<&B</h1> 2024-01-15"))
        (str ("F")) (str ("D")) (str ("L")) (str ("%Y-%m-%d"))).1.toOption.getD []) = true ∧
    occursIn (str ("A&lt;&amp;B"))
      ((markdown_to_rss ⟨2024, 1, 1, 0, 0, 0⟩ (str ("<h1>A<&B</h1> 2024-01-15"))
        (str ("F")) (str ("D")) (str ("L")) (str ("%Y-%m-%d"))).1.toOption.getD []) = false := by
  exact ⟨by decide, by decide, by decide⟩

/-- C3 amended: the extractor HTML-escapes the title and the serializer
escapes every text node again, so a title containing `<` and `&` is rendered
double-escaped (as `&amp;lt;` and `&amp;amp;`) in the feed document; raw
markup never appears.  The full output for such a title is computed
exactly, for any serialization-time clock. -/
theorem c3_amended (now : DateTime) :
    (∀ tag txt : Str, txt ≠ [] →
      renderTextEl tag txt =
        str ("<") ++ tag ++ str (">") ++ etEscape txt ++ str ("</") ++ tag ++ str (">")) ∧
    escape (str ("A<&B")) = str ("A&lt;&amp;B") ∧
    etEscape (str ("A&lt;&amp;B")) = str ("A&amp;lt;&amp;amp;B") ∧
    markdown_to_rss now (str ("<h1>A<&B</h1> 2024-01-15")) (str ("F")) (str ("D"))
        (str ("L")) (str ("%Y-%m-%d")) =
      (Except.ok (xmlDecl ++ str ("<rss version=\"2.0\"><channel><title>F</title><description>D</description><link>L</link><item><title>A&amp;lt;&amp;amp;B</title><description /><pubDate>Mon, 15 Jan 2024 00:00:00 +0000</pubDate></item></channel></rss>")),
       []) := by
  refine ⟨?_, by decide, by decide, ?_⟩
  · intro tag txt h
    have he : txt.isEmpty = false := by
      cases txt with
      | nil => exact absurd rfl h
      | cons c r => rfl
    simp [renderTextEl, he]
  · rfl

/-- C8 counterexample: two invocations of the full conversion on equal
inputs produce different output text when the wall clock differs, because a
dateless article's publish date is taken from `datetime.now()`; the
conversion is not a pure function of its inputs. -/
theorem c8_counterexample :
    markdown_to_rss ⟨2024, 5, 2, 10, 3, 4⟩ (str ("<h1>T</h1>b")) (str ("F"))
        (str ("D")) (str ("L")) (str ("%Y-%m-%d")) ≠
      markdown_to_rss ⟨2024, 5, 3, 10, 3, 4⟩ (str ("<h1>T</h1>b")) (str ("F"))
        (str ("D")) (str ("L")) (str ("%Y-%m-%d")) := by
  decide

/-- C8 amended: the conversion is a pure function of its inputs together
with the wall clock, and when every extracted article carries a parsed date
the output text is independent of the clock — two invocations on equal
markdown content, feed metadata and date format then produce identical
output. -/
theorem c8_amended (now1 now2 : DateTime) (html ft fd fl fmt : Str)
    (arts : List Article) (lgs : List LogEvent)
    (h : parse_markdown html fmt = Except.ok (arts, lgs))
    (hdated : ∀ a ∈ arts, a.date.isSome = true) :
    markdown_to_rss now1 html ft fd fl fmt = markdown_to_rss now2 html ft fd fl fmt := by
  rw [markdown_to_rss_ok now1 html ft fd fl fmt arts lgs h,
      markdown_to_rss_ok now2 html ft fd fl fmt arts lgs h]
  have hitem : ∀ a ∈ arts, renderItem now1 a = renderItem now2 a := by
    intro a ha
    cases hd : a.date with
    | none =>
      have hda := hdated a ha
      rw [hd] at hda
      cases hda
    | some dt =>
      unfold renderItem
      rw [hd]
  rw [List.map_congr_left hitem]

/-- Witness for C8 amended at a concrete fully-dated document. -/
theorem c8_amended_witness :
    markdown_to_rss ⟨2024, 1, 1, 0, 0, 0⟩ (str ("<h1>T</h1>\n2024-01-15")) (str ("F"))
        (str ("D")) (str ("L")) (str ("%Y-%m-%d")) =
      markdown_to_rss ⟨2030, 6, 7, 8, 9, 10⟩ (str ("<h1>T</h1>\n2024-01-15")) (str ("F"))
        (str ("D")) (str ("L")) (str ("%Y-%m-%d")) :=
  c8_amended ⟨2024, 1, 1, 0, 0, 0⟩ ⟨2030, 6, 7, 8, 9, 10⟩ (str ("<h1>T</h1>\n2024-01-15"))
    (str ("F")) (str ("D")) (str ("L")) (str ("%Y-%m-%d"))
    [⟨str ("T"), [], some ⟨2024, 1, 15, 0, 0, 0⟩, [], none⟩] [] (by decide) (by decide)

/-- Witness for C3 amended: the serializer-side escaping applied to an
already-escaped title, and the exact double-escaped feed output. -/
theorem c3_amended_witness :
    renderTextEl (str ("title")) (str ("A&lt;&amp;B")) =
      str ("<") ++ str ("title") ++ str (">") ++ etEscape (str ("A&lt;&amp;B")) ++
        str ("</") ++ str ("title") ++ str (">") ∧
    markdown_to_rss ⟨2024, 1, 1, 0, 0, 0⟩ (str ("<h1>A<&B</h1> 2024-01-15")) (str ("F"))
        (str ("D")) (str ("L")) (str ("%Y-%m-%d")) =
      (Except.ok (xmlDecl ++ str ("<rss version=\"2.0\"><channel><title>F</title><description>D</description><link>L</link><item><title>A&amp;lt;&amp;amp;B</title><description /><pubDate>Mon, 15 Jan 2024 00:00:00 +0000</pubDate></item></channel></rss>")),
       []) :=
  ⟨(c3_amended ⟨2024, 1, 1, 0, 0, 0⟩).1 (str ("title")) (str ("A&lt;&amp;B")) (by decide),
   (c3_amended ⟨2024, 1, 1, 0, 0, 0⟩).2.2.2⟩
